import Mathlib

/-!
Verification development for the Windows file-manager repository
(`utils.py`, `navigation.py`, `analysis.py`, `search.py`, `main.py`).

Shallow embedding conventions
-----------------------------

* A filesystem path is modelled as a `List String` of components.  The
  program renders paths in the rooted, drive-less Windows form
  `"\comp1\comp2\..."` (the only form its own validator accepts, since the
  validator forbids `:` and hence every drive-letter path); `pathString`
  produces that rendering.  `os.path.join p s`, when `s` is such a rooted
  string, returns `s` itself, which is why joining a directory path with the
  full child path produced by `safe_windows_listdir` yields the child path;
  component-wise this is `p ++ [n]`.

* The operating system is modelled by the `FS` structure: one function per
  OS primitive the program calls.  `Option` results model primitives that can
  raise (`none` = the call raises `OSError`/`PermissionError`); `Bool`
  results model primitives that return normally on every input
  (`os.path.isdir`, `os.path.islink`, `os.path.exists` return `False`
  rather than raising, `GetFileAttributesW` returns a bitmask, `os.access`
  returns a `bool`).

* Recursive walks take a fuel parameter; `none` means the fuel ran out, so a
  `some` result is a computation the program completes.
-/

/-- One OS primitive per field; paths are component lists (see header). -/
structure FS where
  /-- `os.path.exists` (follows symbolic links, total). -/
  exists_ : List String → Bool
  /-- `os.path.isdir` (follows symbolic links, total). -/
  isdir : List String → Bool
  /-- `os.path.islink` (total). -/
  islink : List String → Bool
  /-- `Path(p).iterdir()` as bare child names; `none` models the call raising
  (`PermissionError`, `FileNotFoundError`, other `OSError`). -/
  listdir : List String → Option (List String)
  /-- `os.path.getsize`; `none` models the call raising. -/
  getsize : List String → Option Nat
  /-- `os.path.getmtime` followed by `strftime('%Y-%m-%d')`, already rendered;
  `none` models either call raising. -/
  mtime : List String → Option String
  /-- `utils.is_hidden_windows_file`: `GetFileAttributesW` bit 0x2.  The API
  returns a bitmask (or -1) and never raises on Windows, so this is total. -/
  isHidden : List String → Bool
  /-- `os.access(p, os.W_OK)` (total). -/
  accessW : List String → Bool

/-- Rendering of a component path in the rooted drive-less Windows form:
`pathString ["r", "x"] = "\r\x"` (each component preceded by one `\`). -/
def pathString (p : List String) : String :=
  p.foldl (fun acc n => acc ++ "\\" ++ n) ""

/-- The forbidden characters of `utils.validate_windows_path`:
`forbidden_chars = '/:*?"<>|'`. -/
def forbiddenChars : List Char := ['/', ':', '*', '?', '"', '<', '>', '|']

/-- `any(char in path_str for char in forbidden_chars)`: the code loops over
`forbidden_chars` testing membership in the path string. -/
def hasForbiddenChar (s : String) : Bool :=
  s.data.any (fun c => forbiddenChars.contains c)

/-- `str.lower()` (per-character lowercasing; ASCII model of the Unicode
mapping). -/
def strLower (s : String) : String := String.mk (s.data.map Char.toLower)

/-- A character removed by Python's `str.strip()` (ASCII whitespace model). -/
def isStripChar (c : Char) : Bool := c == ' ' || c == '\t' || c == '\n' || c == '\r'

/-- `str.strip()`. -/
def strStrip (s : String) : String :=
  String.mk (((s.data.dropWhile isStripChar).reverse.dropWhile isStripChar).reverse)

/-- `str.endswith(suffix)` (a tuple argument in the source is the
disjunction of the single-suffix tests). -/
def strEndsWith (s suffix : String) : Bool := suffix.data.isSuffixOf s.data

/-- The characters after the last `'.'` (what `s.split('.')[-1]` returns
when a dot is present). -/
def afterLastDot (l : List Char) : List Char :=
  (l.reverse.takeWhile (fun c => c != '.')).reverse

/-- `utils.validate_windows_path`.  The existence test `os.path.exists` is
passed in as the Boolean `ex` (the `FS` is consulted by the caller).  Returns
`(valid, error message)` exactly as the source does. -/
def validateWindowsPath (ex : Bool) (s : String) : Bool × String :=
  if hasForbiddenChar s then (false, "Путь содержит запрещенный символ")
  else if s.length > 260 then (false, "Длина пути превышает 260 символов")
  else if !ex then (false, "Путь не существует")
  else (true, "")

/-- `round(num/den, 1)` rendered the way a Python f-string prints the rounded
float, modelled exactly on rationals (round half to even at one decimal).
The binary-float representation can differ from the exact rational in rare
cases; no theorem below inspects this branch. -/
def round1String (num den : Nat) : String :=
  let t10 := num * 10
  let q := t10 / den
  let r := t10 % den
  let tenths :=
    if 2 * r > den then q + 1
    else if 2 * r < den then q
    else if q % 2 = 0 then q else q + 1
  toString (tenths / 10) ++ "." ++ toString (tenths % 10)

/-- `utils.format_size`. -/
def formatSize (sizeBytes : Nat) : String :=
  if sizeBytes < 1024 then toString sizeBytes ++ " B"
  else if sizeBytes < 1024 ^ 2 then round1String sizeBytes 1024 ++ " KB"
  else if sizeBytes < 1024 ^ 3 then round1String sizeBytes (1024 ^ 2) ++ " MB"
  else round1String sizeBytes (1024 ^ 3) ++ " GB"

/-- The `'type'` field of a `list_directory` item. -/
inductive EType where
  | file
  | directory
deriving DecidableEq, Repr

/-- The `'size'` field: either the Python int `0` (directories, failed stat)
or the `format_size` string (files). -/
inductive SizeField where
  | intZero
  | sizeStr (s : String)
deriving DecidableEq, Repr

/-- One dictionary of `navigation.list_directory`'s result list.  The `name`
field of the source holds `str(child)` from `Path.iterdir()`, i.e. the FULL
child path (not the bare name); we carry it as the component list `path`,
whose string form is `pathString path`. -/
structure Entry where
  path : List String
  etype : EType
  size : SizeField
  modified : String
  hidden : Bool
deriving DecidableEq, Repr

/-- `utils.safe_windows_listdir`: returns the children as full paths, or `[]`
when `iterdir` raises (`PermissionError` / `FileNotFoundError` / `OSError`
are each caught, printed about, and turned into `[]`). -/
def safeWindowsListdir (fs : FS) (p : List String) : List (List String) :=
  match fs.listdir p with
  | none => []
  | some names => names.map (fun n => p ++ [n])

/-- The per-item dictionary construction inside `list_directory`'s loop.
`full_path = os.path.join(path, item)` where `item` is the rooted child path
string, so `full_path` is the child path itself.  `os.path.getsize` /
`os.path.getmtime` failures are caught by the inner `try`s and replaced by
the int `0` / `'N/A'`; nothing else in the loop body can raise on Windows,
so the outer `except: continue` never omits an item. -/
def mkEntry (fs : FS) (child : List String) : Entry :=
  let t := if fs.isdir child then EType.directory else EType.file
  { path := child
    etype := t
    size :=
      if t = EType.file then
        match fs.getsize child with
        | some sz => SizeField.sizeStr (formatSize sz)
        | none => SizeField.intZero
      else SizeField.intZero
    modified := (fs.mtime child).getD "N/A"
    hidden := fs.isHidden child }

/-- `navigation.list_directory`.  Validates the path (which itself re-checks
existence), re-checks existence, then builds one `Entry` per child returned
by `safe_windows_listdir`. -/
def listDirectory (fs : FS) (p : List String) : Bool × List Entry :=
  if (validateWindowsPath (fs.exists_ p) (pathString p)).1 = false then (false, [])
  else if fs.exists_ p = false then (false, [])
  else (true, (safeWindowsListdir fs p).map (mkEntry fs))

/-! ### `analysis.count_files` -/

/-- The `for item in items` loop body of `count_files`
(`item_path = os.path.join(path, item['name'])` is the child path); `rec` is
the recursive call on a subdirectory. -/
def countFilesItems (rec : List String → Option (Bool × Nat)) :
    List Entry → Option Nat
  | [] => some 0
  | e :: rest =>
    if e.etype = EType.directory then
      match rec e.path with
      | none => none
      | some (ok, sub) =>
        (countFilesItems rec rest).map (fun m => (if ok then sub else 0) + m)
    else
      (countFilesItems rec rest).map (fun m => 1 + m)

/-- `analysis.count_files`: recursive count of all non-directory items; a
failed subtree (`sub_success = False`) contributes `0`.  Symbolic links are
not inspected anywhere in this function. -/
def countFiles (fs : FS) : Nat → List String → Option (Bool × Nat)
  | 0, _ => none
  | fuel + 1, p =>
    if fs.exists_ p = false then some (false, 0)
    else
      match listDirectory fs p with
      | (false, _) => some (false, 0)
      | (true, items) => (countFilesItems (countFiles fs fuel) items).map (fun n => (true, n))

/-! ### `analysis.count_bytes` -/

/-- The lowercase deny-list of `count_bytes`. -/
def pagingDenyList : List String := ["pagefile.sys", "hiberfil.sys", "swapfile.sys"]

/-- The `for item in items` loop body of `recursive_calc`; `rec` is the
recursive call on a subdirectory. -/
def countBytesItems (fs : FS) (rec : List String → Option Nat) :
    List Entry → Option Nat
  | [] => some 0
  | e :: rest =>
    if fs.islink e.path then countBytesItems fs rec rest
    else if e.etype = EType.directory then
      match rec e.path with
      | none => none
      | some sub => (countBytesItems fs rec rest).map (fun m => sub + m)
    else if pagingDenyList.contains (strLower (pathString e.path)) then
      countBytesItems fs rec rest
    else
      match fs.getsize e.path with
      | some sz => (countBytesItems fs rec rest).map (fun m => sz + m)
      | none => countBytesItems fs rec rest

/-- The `recursive_calc` closure of `analysis.count_bytes`, with the
`nonlocal total_size` accumulation returned as a value.  Skips symbolic
links; skips files whose lowercased *name field* (the full child path — see
`Entry`) is in the deny-list; a raising `os.path.getsize` contributes 0. -/
def recursiveCalc (fs : FS) : Nat → List String → Option Nat
  | 0, _ => none
  | fuel + 1, p =>
    match listDirectory fs p with
    | (false, _) => some 0
    | (true, items) => countBytesItems fs (recursiveCalc fs fuel) items

/-- `analysis.count_bytes`. -/
def countBytes (fs : FS) (fuel : Nat) (p : List String) : Option (Bool × Nat) :=
  if fs.exists_ p = false then some (false, 0)
  else (recursiveCalc fs fuel p).map (fun n => (true, n))

/-! ### `analysis.analyze_windows_file_types` -/

/-- `windows_extension_categories`, in dict insertion order (the category
lookup takes the first set containing the extension). -/
def windowsExtensionCategories : List (String × List String) :=
  [("executables", [".exe", ".dll", ".msi", ".sys", ".com"]),
   ("scripts", [".bat", ".cmd", ".ps1", ".vbs", ".js"]),
   ("office_docs", [".doc", ".docx", ".xls", ".xlsx", ".ppt", ".pptx"]),
   ("archives", [".zip", ".rar", ".7z", ".cab", ".iso"]),
   ("system_files", [".ini", ".inf", ".reg", ".dmp", ".log"]),
   ("shortcuts", [".lnk", ".url"]),
   ("drivers", [".drv", ".sys", ".vxd"]),
   ("media", [".wmv", ".wma", ".asf"])]

/-- `all_windows_extensions` membership (the union of all category sets). -/
def isWindowsExtension (ext : String) : Bool :=
  windowsExtensionCategories.any (fun cat => cat.2.contains ext)

/-- `for cat_name, cat_exts in windows_extension_categories.items(): ...`
with default `'other'`. -/
def categoryOf (ext : String) : String :=
  match windowsExtensionCategories.find? (fun cat => cat.2.contains ext) with
  | some cat => cat.1
  | none => "other"

/-- Extension extraction of `collect_extensions`: last-dot rule on the
lowercased *name field* string, sentinel bucket when no dot is present. -/
def extOf (s : String) : String :=
  if s.data.contains '.' then "." ++ String.mk (afterLastDot (strLower s).data)
  else "без расширения"

/-- One record of the `extensions_stats` defaultdict. -/
structure ExtStat where
  count : Nat
  total_size : Nat
  size : Nat
  category : String
  is_windows : Bool
  formatted_size : String
deriving DecidableEq, Repr

/-- The histogram: a Python dict in insertion order. -/
abbrev Hist := List (String × ExtStat)

/-- `stats = extensions_stats[ext]; stats['count'] += 1; ...`: get-or-create
(`create_default_stats`) followed by the in-place update; a fresh key is
appended at the end, as dict insertion order does. -/
def bumpExt (h : Hist) (ext : String) (fsize : Nat) (cat : String) (isW : Bool) : Hist :=
  match h with
  | [] => [(ext, ⟨1, fsize, fsize, cat, isW, ""⟩)]
  | (k, st) :: rest =>
    if k = ext then
      (k, ⟨st.count + 1, st.total_size + fsize, st.total_size + fsize, cat, isW,
           st.formatted_size⟩) :: rest
    else (k, st) :: bumpExt rest ext fsize cat isW

/-- The `for item in items` loop body of `collect_extensions`; `rec` is the
recursive call on a subdirectory. -/
def collectItems (fs : FS) (rec : List String → Hist → Option Hist) :
    List Entry → Hist → Option Hist
  | [], h => some h
  | e :: rest, h =>
    if e.etype = EType.directory then
      match rec e.path h with
      | none => none
      | some h' => collectItems fs rec rest h'
    else
      let ext := extOf (pathString e.path)
      let fsize := (fs.getsize e.path).getD 0
      collectItems fs rec rest (bumpExt h ext fsize (categoryOf ext) (isWindowsExtension ext))

/-- The `collect_extensions` closure of `analyze_windows_file_types`, with
the mutable `extensions_stats` threaded through. -/
def collectExtensions (fs : FS) : Nat → List String → Hist → Option Hist
  | 0, _, _ => none
  | fuel + 1, p, h =>
    match listDirectory fs p with
    | (false, _) => some h
    | (true, items) => collectItems fs (collectExtensions fs fuel) items h

/-- Stable insert used to model Python's stable `sorted`/`list.sort` with
`reverse=True`: an element is placed before the first strictly smaller key,
i.e. after all earlier elements with an equal key. -/
def insertByCountDesc (x : String × ExtStat) : Hist → Hist
  | [] => [x]
  | y :: ys => if x.2.count ≥ y.2.count then x :: y :: ys else y :: insertByCountDesc x ys

/-- `sorted(result.items(), key=get_item_count, reverse=True)` (stable). -/
def sortByCountDesc : Hist → Hist
  | [] => []
  | y :: ys => insertByCountDesc y (sortByCountDesc ys)

/-- The post-walk pass of `analyze_windows_file_types`: set
`formatted_size` and re-sync the `size` alias on every record. -/
def postProcessHist (h : Hist) : Hist :=
  h.map (fun e =>
    (e.1, { e.2 with formatted_size := formatSize e.2.total_size, size := e.2.total_size }))

/-- `analysis.analyze_windows_file_types`. -/
def analyzeWindowsFileTypes (fs : FS) (fuel : Nat) (p : List String) :
    Option (Bool × Hist) :=
  if fs.exists_ p = false then some (false, [])
  else (collectExtensions fs fuel p []).map
    (fun h => (true, sortByCountDesc (postProcessHist h)))

/-! ### `analysis.get_windows_file_attributes_stats` -/

/-- Python's `sub in s` substring test. -/
def strContains (s sub : String) : Bool :=
  s.data.tails.any (fun t => sub.data.isPrefixOf t)

/-- The four counters of `get_windows_file_attributes_stats`. -/
structure AttrStats where
  hidden : Nat
  system : Nat
  readonly : Nat
  archive : Nat
deriving DecidableEq, Repr

/-- The per-file body of `collect_attributes`.  `filename` is the lowercased
name field (the full child path string), `dirname` is
`os.path.dirname(item_path).lower()`, i.e. the rendered parent path. -/
def attrUpdate (fs : FS) (p : List String) (e : Entry) (st : AttrStats) : AttrStats :=
  let filename := strLower (pathString e.path)
  let dirname := strLower (pathString p)
  let st := if fs.isHidden e.path then { st with hidden := st.hidden + 1 } else st
  let st :=
    if (strEndsWith filename ".sys" || strEndsWith filename ".dll" ||
        strEndsWith filename ".drv") &&
       (strContains dirname "windows" || strContains dirname "system32" ||
        strContains dirname "winnt") then
      { st with system := st.system + 1 }
    else st
  let st := if !fs.accessW e.path then { st with readonly := st.readonly + 1 } else st
  if strEndsWith filename ".zip" || strEndsWith filename ".rar" ||
     strEndsWith filename ".7z" || strEndsWith filename ".tar" ||
     strEndsWith filename ".gz" || strEndsWith filename ".cab" then
    { st with archive := st.archive + 1 }
  else st

/-- The `for item in items` loop body of `collect_attributes`; `rec` is the
recursive call on a subdirectory. -/
def attrItems (fs : FS) (rec : List String → AttrStats → Option AttrStats)
    (p : List String) : List Entry → AttrStats → Option AttrStats
  | [], st => some st
  | e :: rest, st =>
    if e.etype = EType.file then
      attrItems fs rec p rest (attrUpdate fs p e st)
    else
      match rec e.path st with
      | none => none
      | some st' => attrItems fs rec p rest st'

/-- The `collect_attributes` closure, with the mutable `stats` dict threaded
through.  Nothing inside the per-file `try` can raise in the Windows model
(see `FS.isHidden`), so the `except: continue` is never taken. -/
def collectAttributes (fs : FS) : Nat → List String → AttrStats → Option AttrStats
  | 0, _, _ => none
  | fuel + 1, p, st =>
    match listDirectory fs p with
    | (false, _) => some st
    | (true, items) => attrItems fs (collectAttributes fs fuel) p items st

/-- `analysis.get_windows_file_attributes_stats`: note there is no success
flag in the result — a nonexistent root returns the zeroed counters. -/
def getWindowsFileAttributesStats (fs : FS) (fuel : Nat) (p : List String) :
    Option AttrStats :=
  if fs.exists_ p then collectAttributes fs fuel p ⟨0, 0, 0, 0⟩
  else some ⟨0, 0, 0, 0⟩

/-! ### `find_large_files` (nested in `analysis.show_windows_directory_stats`) -/

/-- One `{'path', 'name', 'size'}` record of the largest-files list; the
`name` field holds the full child path string (see `Entry`). -/
structure FileRec where
  path : List String
  name : String
  size : Nat
deriving DecidableEq, Repr

/-- The window order: `a` may precede `b` when `a.size ≥ b.size`. -/
def windowGe (a b : FileRec) : Prop := b.size ≤ a.size

instance : DecidableRel windowGe := fun a b => Nat.decLe b.size a.size

instance : IsTotal FileRec windowGe := ⟨fun a b => Nat.le_total b.size a.size⟩

instance : IsTrans FileRec windowGe :=
  ⟨fun _ _ _ hab hbc => Nat.le_trans hbc hab⟩

/-- `file_list.sort(key=get_file_size, reverse=True)`: Python's sort is
stable, and insertion sort under `windowGe` realises the same stable order
(a record is inserted before the first strictly smaller one, i.e. after all
earlier records of equal size). -/
def sortBySizeDesc (l : List FileRec) : List FileRec := List.insertionSort windowGe l

/-- The per-file window update of `find_large_files`: append the new record,
sort descending, and `pop()` the last (smallest) record when the window
exceeds `max_files`. -/
def findLargeStep (maxFiles : Nat) (fileList : List FileRec) (f : FileRec) : List FileRec :=
  let l := sortBySizeDesc (fileList ++ [f])
  if l.length > maxFiles then l.dropLast else l

/-- The `for item in items` loop body of `find_large_files`; `rec` is the
recursive call on a subdirectory. -/
def largeItems (fs : FS) (rec : List String → List FileRec → Option (List FileRec))
    (maxFiles : Nat) : List Entry → List FileRec → Option (List FileRec)
  | [], fileList => some fileList
  | e :: rest, fileList =>
    if e.etype = EType.file then
      match fs.getsize e.path with
      | none => largeItems fs rec maxFiles rest fileList
      | some sz =>
        largeItems fs rec maxFiles rest
          (findLargeStep maxFiles fileList ⟨e.path, pathString e.path, sz⟩)
    else
      match rec e.path fileList with
      | none => none
      | some fileList' => largeItems fs rec maxFiles rest fileList'

/-- `find_large_files` (the closure nested in `show_windows_directory_stats`),
with the mutated `file_list` threaded through.  A raising `os.path.getsize`
skips the file (`except ...: continue`). -/
def findLargeFiles (fs : FS) : Nat → List String → Nat → List FileRec →
    Option (List FileRec)
  | 0, _, _, _ => none
  | fuel + 1, p, maxFiles, fileList =>
    match listDirectory fs p with
    | (false, _) => some fileList
    | (true, items) =>
      largeItems fs (fun q l => findLargeFiles fs fuel q maxFiles l) maxFiles items fileList

/-! ### `search.py`: the wildcard matcher of `find_files_windows` -/

/-- One atom of the regex built by `find_files_windows`: `*` becomes `(.)*`,
`?` becomes `(.)`, every other pattern character is a literal (regex-special
characters are backslash-escaped, which keeps them literal). -/
inductive WAtom where
  | lit (c : Char)
  | dot
  | star
deriving DecidableEq, Repr

/-- The regex-construction loop of `find_files_windows`: the branch on `*`
and `?` happens before lowercasing; other characters are lowercased when the
search is case-insensitive.  (`str.lower()` lowercases per character.) -/
def compileWildcard (cs : Bool) (pat : List Char) : List WAtom :=
  pat.map (fun c =>
    if c = '*' then WAtom.star
    else if c = '?' then WAtom.dot
    else WAtom.lit (if cs then c else c.toLower))

/-- Anchored matching of the compiled atoms against the whole name.  The
source accepts a name iff some `re.finditer` match equals the entire name;
for regexes of this restricted shape (`(.)*`, `(.)`, literals) the greedy
leftmost match the engine returns covers the whole string whenever a
whole-string match exists, so the acceptance test is equivalent to an
anchored full match.  (Python's `.` does not match a newline; Windows file
names cannot contain one.) -/
def wAcceptGo (fuel : Nat) (atoms : List WAtom) (nm : List Char) : Bool :=
  match fuel with
  | 0 => false
  | fuel + 1 =>
    match atoms, nm with
    | [], [] => true
    | [], _ :: _ => false
    | WAtom.lit _ :: _, [] => false
    | WAtom.lit c :: as, d :: ds => c == d && wAcceptGo fuel as ds
    | WAtom.dot :: _, [] => false
    | WAtom.dot :: as, _ :: ds => wAcceptGo fuel as ds
    | WAtom.star :: as, ds =>
      wAcceptGo fuel as ds ||
        match ds with
        | [] => false
        | _ :: ds' => wAcceptGo fuel (WAtom.star :: as) ds'

/-- `wAcceptGo` with enough fuel: every recursive call shrinks
`atoms.length + nm.length` by at least one. -/
def wAccept (atoms : List WAtom) (nm : List Char) : Bool :=
  wAcceptGo (atoms.length + nm.length + 1) atoms nm

/-- The acceptance test of `find_files_windows` for one name string: the
name is lowercased when the search is case-insensitive, then matched in full
against the compiled pattern. -/
def patternAccept (pattern : String) (cs : Bool) (name : String) : Bool :=
  wAccept (compileWildcard cs pattern.data)
    (if cs then name.data else name.data.map Char.toLower)

/-- The body of the `for file_info in files` loop of `find_files_windows`:
skip blank names, then test the stripped *name field* (the full child path
string) against the pattern. -/
def entryMatches (pattern : String) (cs : Bool) (e : Entry) : Bool :=
  let fileName := strStrip (pathString e.path)
  !fileName.data.isEmpty && patternAccept pattern cs fileName

/-! ### `search.py`: the three walks and their `TypeError`

All three walk loops in `search.py` contain
`dirs, files = navigation.list_directory(current)`, but `list_directory`
returns `(success: bool, items: list)`.  So `dirs` is bound to the Boolean
success flag and `files` to the item list; the `for file_info in files` loop
runs over every item (directories included), and the subsequent
`for dir_name in dirs:` iterates over a `bool`, which raises
`TypeError: 'bool' object is not iterable` on the very first iteration of
the `while` loop (the stack starts non-empty and the root is never in
`visited`).  The walks therefore never reach a second directory and never
return normally. -/

/-- A Python exception escaping a `search.py` function. -/
inductive PyErr where
  | typeError
  | osError
deriving DecidableEq, Repr

/-- `search.find_files_windows`.  The preamble strips the pattern and
normalizes the root (our component paths are already normal).  The first
`while` iteration pops the root, lists it, runs the file loop (pure string
work, recorded in `_matches`), and then raises `TypeError` iterating the
Boolean `dirs`. -/
def findFilesWindows (fs : FS) (pattern : String) (root : List String)
    (cs : Bool) : Except PyErr (List String) :=
  let dirsFiles := listDirectory fs root
  let _matches :=
    (dirsFiles.2.filter (entryMatches (strStrip pattern) cs)).map (fun e => pathString e.path)
  Except.error PyErr.typeError

/-- The `'file'` / `'directory'` string of an item's `'type'` field (already
lowercase in the source literals). -/
def entryTypeStr (e : Entry) : String :=
  match e.etype with
  | EType.file => "file"
  | EType.directory => "directory"

/-- The in-place extension normalization loop of
`search.find_by_windows_extension`: strip, lowercase, prefix a dot when the
(nonempty) entry lacks one. -/
def normalizeExtensions (extensions : List String) : List String :=
  extensions.map (fun e =>
    let t := strLower (strStrip e)
    if t.data.isEmpty then t
    else if t.data.head? = some '.' then t
    else "." ++ t)

/-- `search.find_by_windows_extension`.  The file loop compares the item's
`'type'` string (`'file'`/`'directory'`) with each normalized extension —
recorded in `_hits` — and the dirs loop then raises `TypeError` exactly as
in `find_files_windows`. -/
def findByWindowsExtension (fs : FS) (extensions : List String)
    (root : List String) : Except PyErr (List String) :=
  let exts := normalizeExtensions extensions
  let dirsFiles := listDirectory fs root
  let _hits :=
    (dirsFiles.2.filter (fun e => exts.contains (entryTypeStr e))).map
      (fun e => pathString e.path)
  Except.error PyErr.typeError

/-- One `{'path', 'size_mb', 'type'}` record of
`find_large_files_windows`.  `size_mb` is a rounded float in the source;
since the function never returns normally, we record the exact byte count. -/
structure SizeRec where
  path : List String
  sizeBytes : Nat
  typeStr : String
deriving DecidableEq, Repr

/-- The file loop of `find_large_files_windows`: entries failing
`os.path.exists` are skipped, then `os.path.getsize` runs OUTSIDE any
`try` — a raising stat escapes as `OSError`. -/
def processLargeEntries (fs : FS) (minBytes : Nat) :
    List Entry → Except PyErr (List SizeRec)
  | [] => Except.ok []
  | e :: rest =>
    if fs.exists_ e.path = false then processLargeEntries fs minBytes rest
    else
      match fs.getsize e.path with
      | none => Except.error PyErr.osError
      | some sz =>
        match processLargeEntries fs minBytes rest with
        | Except.error err => Except.error err
        | Except.ok recs =>
          Except.ok (if sz ≥ minBytes then ⟨e.path, sz, entryTypeStr e⟩ :: recs else recs)

/-- `search.find_large_files_windows`.  `min_bytes = int(min_size_mb * 1024 *
1024)` is taken as the `minBytes` argument (the float multiplication is not
modelled).  The first iteration's file loop may raise `OSError` from the
unguarded `os.path.getsize`; otherwise the dirs loop raises `TypeError`. -/
def findLargeFilesWindows (fs : FS) (minBytes : Nat) (root : List String) :
    Except PyErr (List SizeRec) :=
  let dirsFiles := listDirectory fs root
  match processLargeEntries fs minBytes dirsFiles.2 with
  | Except.error err => Except.error err
  | Except.ok _ => Except.error PyErr.typeError

/-! ### A symlink-free directory-tree model and the `FS` it induces

Used to state universal theorems about the walks.  A `FTree` is a concrete
tree of regular files and directories; `fsOfTree` turns it into the `FS`
interface the embedded code consumes. -/

/-- A symlink-free filesystem tree. -/
inductive FTree where
  | file (size : Nat)
  | dir (entries : List (String × FTree))

/-- First entry of the given name (directory entries are name-unique in any
well-formed tree, see `entriesWf`). -/
def lookupEntry : List (String × FTree) → String → Option FTree
  | [], _ => none
  | (m, c) :: es, n => if m = n then some c else lookupEntry es n

/-- Resolve a relative component path inside a tree. -/
def FTree.resolve : FTree → List String → Option FTree
  | t, [] => some t
  | FTree.file _, _ :: _ => none
  | FTree.dir es, n :: rest =>
    match lookupEntry es n with
    | none => none
    | some c => c.resolve rest

/-- The node a full path denotes when the tree `t` is mounted at the single
root component `root`. -/
def treeAt (root : String) (t : FTree) (p : List String) : Option FTree :=
  match p with
  | [] => none
  | r :: rest => if r = root then t.resolve rest else none

/-- The `FS` presented by a mounted symlink-free tree: `exists`/`isdir`
resolve the path, `listdir` lists a directory's names, `getsize` returns a
file's size (and 0 for a directory, as `os.path.getsize` succeeds on
directories), there are no links, nothing is hidden, everything is
writable, and stat dates resolve. -/
def fsOfTree (root : String) (t : FTree) : FS where
  exists_ p := (treeAt root t p).isSome
  isdir p :=
    match treeAt root t p with
    | some (FTree.dir _) => true
    | _ => false
  islink _ := false
  listdir p :=
    match treeAt root t p with
    | some (FTree.dir es) => some (es.map Prod.fst)
    | _ => none
  getsize p :=
    match treeAt root t p with
    | some (FTree.file sz) => some sz
    | some (FTree.dir _) => some 0
    | none => none
  mtime _ := some "2024-01-01"
  isHidden _ := false
  accessW _ := true

mutual

/-- Node count, the induction measure. -/
def FTree.nsize : FTree → Nat
  | FTree.file _ => 1
  | FTree.dir es => 1 + entriesNsize es

def entriesNsize : List (String × FTree) → Nat
  | [] => 0
  | (_, c) :: es => c.nsize + entriesNsize es

end

mutual

/-- Directory depth: a file has height 0, a directory one more than its
deepest child. -/
def FTree.height : FTree → Nat
  | FTree.file _ => 0
  | FTree.dir es => entriesHeight es

def entriesHeight : List (String × FTree) → Nat
  | [] => 0
  | (_, c) :: es => max (c.height + 1) (entriesHeight es)

end

mutual

/-- Reference count of a tree's non-directory entries, written from the
spec: the number of non-directory (and, the tree being symlink-free,
non-symlink) entries reachable by depth-first traversal. -/
def FTree.specCount : FTree → Nat
  | FTree.file _ => 1
  | FTree.dir es => entriesCount es

def entriesCount : List (String × FTree) → Nat
  | [] => 0
  | (_, c) :: es => c.specCount + entriesCount es

end

/-- A directory-entry name as Windows produces them: nonempty, free of the
validator's forbidden characters and of the path separator. -/
def entryNameOk (n : String) : Bool :=
  !n.data.isEmpty && !hasForbiddenChar n && !n.data.contains '\\'

mutual

/-- Well-formedness of a tree whose own path renders with `curLen`
characters: entry names are valid and pairwise distinct, every child path
stays within the validator's 260-character bound, recursively. -/
def FTree.wfB : Nat → FTree → Bool
  | _, FTree.file _ => true
  | curLen, FTree.dir es => namesNodup es && entriesWf curLen es

def namesNodup : List (String × FTree) → Bool
  | [] => true
  | (n, _) :: es => !(es.map Prod.fst).contains n && namesNodup es

def entriesWf : Nat → List (String × FTree) → Bool
  | _, [] => true
  | curLen, (n, c) :: es =>
    entryNameOk n && decide (curLen + 1 + n.length ≤ 260) &&
      FTree.wfB (curLen + 1 + n.length) c && entriesWf curLen es

end

/-! ### The specification-side wildcard matcher

`specGlob` is written from the spec's words — `*` matches zero or more
characters, `?` exactly one, every other character matches itself
(lowercased on both sides when case-insensitive), anchored to the whole
name — to be compared with the matcher compiled by the source. -/

def specGlob (cs : Bool) (pat : List Char) (nm : List Char) : Bool :=
  match pat, nm with
  | [], [] => true
  | [], _ :: _ => false
  | c :: ps, ds =>
    if c = '*' then
      specGlob cs ps ds ||
        match ds with
        | [] => false
        | _ :: tail => specGlob cs ('*' :: ps) tail
    else if c = '?' then
      match ds with
      | [] => false
      | _ :: tail => specGlob cs ps tail
    else
      match ds with
      | [] => false
      | d :: tail => (if cs then c else c.toLower) == d && specGlob cs ps tail
termination_by (nm.length, pat.length)

/-- The spec-side matcher on strings, lowercasing the name when the search
is case-insensitive (the pattern's literals are lowercased in `specGlob`). -/
def specGlobMatch (cs : Bool) (pattern name : String) : Bool :=
  specGlob cs pattern.data (if cs then name.data else name.data.map Char.toLower)

/-! ### Concrete filesystems used in the theorems below -/

/-- A small sample tree: `\r\a.txt` (10 bytes) and `\r\sub\b` (20 bytes). -/
def sampleTree : FTree :=
  FTree.dir [("a.txt", FTree.file 10), ("sub", FTree.dir [("b", FTree.file 20)])]

/-- The sample tree mounted at `\r`. -/
def fsSample : FS := fsOfTree "r" sampleTree

/-- The tree of the spec's extension-search example, mounted at `\r`:
`run.exe`, `lib.dll`, `note.txt`. -/
def fsC3 : FS :=
  fsOfTree "r"
    (FTree.dir [("run.exe", FTree.file 10), ("lib.dll", FTree.file 20),
                ("note.txt", FTree.file 5)])

/-- A tree with the single file `\r\a.txt`, for the pattern-search claims. -/
def fsPat : FS := fsOfTree "r" (FTree.dir [("a.txt", FTree.file 5)])

/-- An existing empty directory mounted at `\r`. -/
def fsEmptyDir : FS := fsOfTree "r" (FTree.dir [])

/-- A filesystem on which the path `\r` does not exist. -/
def fsMissing : FS := fsOfTree "q" (FTree.dir [])

/-- A directory `\r` holding a regular file `f` (10 bytes) and a symbolic
link `ln` whose target is a 10-byte file: `ln` satisfies `islink`, and
`exists`/`isdir`/`getsize` follow the link. -/
def fsLink : FS where
  exists_ p := p == ["r"] || p == ["r", "f"] || p == ["r", "ln"]
  isdir p := p == ["r"]
  islink p := p == ["r", "ln"]
  listdir p := if p == ["r"] then some ["f", "ln"] else none
  getsize p := if p == ["r", "f"] || p == ["r", "ln"] then some 10 else none
  mtime _ := some "2024-01-01"
  isHidden _ := false
  accessW _ := true

/-- A 49-character directory-entry name (so each traversal level below adds
50 characters to the rendered path). -/
def aName : String := "aaaaaaaaaaaaaaaaaaaaaaaaaaaaaaaaaaaaaaaaaaaaaaaaa"

/-- Is `p` the directory `\r` seen through `k ≥ 0` traversals of the cycle
(`\r`, `\r\aName`, `\r\aName\aName`, ...)? -/
def isLoopDir (p : List String) : Bool :=
  match p with
  | r :: rest => r == "r" && rest.all (fun n => n == aName)
  | [] => false

/-- Is `p` the file `f` of the cyclic directory, seen through the cycle? -/
def isLoopFile (p : List String) : Bool :=
  match p.getLast? with
  | some "f" => isLoopDir p.dropLast
  | _ => false

/-- A directory `\r` holding one regular 100-byte file `f` and one symbolic
link `aName` pointing back to `\r` itself (its ancestor): every path
`\r\aName\...\aName` resolves — through the link — to `\r` again, so
`exists`/`isdir` are true of all of them, `islink` is true of every path
whose final component goes through the link, and every resolved directory
lists the same two children. -/
def fsLoop : FS where
  exists_ p := isLoopDir p || isLoopFile p
  isdir := isLoopDir
  islink p :=
    match p with
    | "r" :: rest => !rest.isEmpty && rest.all (fun n => n == aName)
    | _ => false
  listdir p := if isLoopDir p then some ["f", aName] else none
  getsize p := if isLoopFile p then some 100 else none
  mtime _ := some "2024-01-01"
  isHidden _ := false
  accessW _ := true

/-- An existing directory `\r` whose listing raises `PermissionError`
(access denied). -/
def fsDenied : FS where
  exists_ p := p == ["r"]
  isdir p := p == ["r"]
  islink _ := false
  listdir _ := none
  getsize _ := none
  mtime _ := none
  isHidden _ := false
  accessW _ := true

/-- A directory `\r` holding one file `g` whose `os.path.getsize` and
`os.path.getmtime` both raise (entry vanished between listing and stat). -/
def fsStatFail : FS where
  exists_ p := p == ["r"] || p == ["r", "g"]
  isdir p := p == ["r"]
  islink _ := false
  listdir p := if p == ["r"] then some ["g"] else none
  getsize _ := none
  mtime _ := none
  isHidden _ := false
  accessW _ := true

/-- Sum of the `count` fields of a histogram. -/
def sumCounts : Hist → Nat
  | [] => 0
  | (_, st) :: rest => st.count + sumCounts rest

/-- The histogram produced for the sample tree. -/
def c9hist : Hist :=
  [(".txt", ⟨1, 10, 10, "other", false, "10 B"⟩),
   ("без расширения", ⟨1, 20, 20, "other", false, "20 B"⟩)]

/-- The window of the sample walk, and a full 2-element window with a
smaller incoming record, for the C8 witness. -/
def c8res : List FileRec :=
  [⟨["r", "sub", "b"], "\\r\\sub\\b", 20⟩, ⟨["r", "a.txt"], "\\r\\a.txt", 10⟩]

/-! ### Basic lemmas about the validator and `list_directory` -/

theorem hasForbidden_of_mem {s : String} {c : Char} (hc : c ∈ forbiddenChars)
    (hs : c ∈ s.data) : hasForbiddenChar s = true := by
  unfold hasForbiddenChar
  rw [List.any_eq_true]
  exact ⟨c, hs, by simpa [forbiddenChars] using hc⟩

theorem validate_false_of_colon (ex : Bool) (s : String) (h : ':' ∈ s.data) :
    (validateWindowsPath ex s).1 = false := by
  have hf : hasForbiddenChar s = true := hasForbidden_of_mem (by decide) h
  simp [validateWindowsPath, hf]

theorem validate_false_of_long (ex : Bool) (s : String) (h : 260 < s.length) :
    (validateWindowsPath ex s).1 = false := by
  unfold validateWindowsPath
  by_cases hf : hasForbiddenChar s <;> simp [hf, h]

theorem validate_true_exists (ex : Bool) (s : String)
    (h : (validateWindowsPath ex s).1 = true) : ex = true := by
  cases ex with
  | true => rfl
  | false =>
    exfalso
    unfold validateWindowsPath at h
    split at h
    · simp at h
    · split at h
      · simp at h
      · simp at h

theorem listDirectory_of_not_exists (fs : FS) (p : List String)
    (h : fs.exists_ p = false) : listDirectory fs p = (false, []) := by
  unfold listDirectory validateWindowsPath
  by_cases h1 : hasForbiddenChar (pathString p) <;>
    by_cases h2 : 260 < (pathString p).length <;> simp [h1, h2, h]

/-- **C6.**  The path validator rejects any path containing one of the
forbidden characters (the colon among them), rejects any path longer than
260 characters, and accepts only existing paths; consequently
`list_directory` fails on every path whose rendered string contains `:`
(in particular on every well-formed absolute drive path `C:\...`). -/
theorem C6_validator_rejects_colon_and_long_paths :
    (∀ (ex : Bool) (s : String), ':' ∈ s.data → (validateWindowsPath ex s).1 = false) ∧
    (∀ (ex : Bool) (s : String), 260 < s.length → (validateWindowsPath ex s).1 = false) ∧
    (∀ (ex : Bool) (s : String), (validateWindowsPath ex s).1 = true → ex = true) ∧
    (∀ (fs : FS) (p : List String), ':' ∈ (pathString p).data →
      (listDirectory fs p).1 = false) := by
  refine ⟨validate_false_of_colon, validate_false_of_long, validate_true_exists, ?_⟩
  intro fs p h
  have hv := validate_false_of_colon (fs.exists_ p) (pathString p) h
  simp [listDirectory, hv]

/-- Witness for C6 at concrete inputs: the drive path `C:\Users` is rejected
even when it exists, and `list_directory` fails on a path containing `:`. -/
theorem C6_witness :
    (validateWindowsPath true "C:\\Users").1 = false ∧
    (listDirectory fsEmptyDir ["C:"]).1 = false :=
  ⟨C6_validator_rejects_colon_and_long_paths.1 true "C:\\Users" (by decide),
   C6_validator_rejects_colon_and_long_paths.2.2.2 fsEmptyDir ["C:"] (by decide)⟩

/-- **C1** (the claim fails on the code).  On every filesystem and every
root, all three search walks terminate with an exception on their first
loop iteration instead of returning a result list: `dirs` is bound to the
Boolean success flag of `list_directory`, and `for dir_name in dirs:`
raises `TypeError`; `find_large_files_windows` can also first raise
`OSError` from its unguarded `os.path.getsize`. -/
theorem C1_search_walks_raise :
    ∀ (fs : FS) (pattern : String) (cs : Bool) (root : List String)
      (exts : List String) (minBytes : Nat),
      findFilesWindows fs pattern root cs = Except.error PyErr.typeError ∧
      findByWindowsExtension fs exts root = Except.error PyErr.typeError ∧
      ∃ err, findLargeFilesWindows fs minBytes root = Except.error err := by
  intro fs pattern cs root exts minBytes
  refine ⟨rfl, rfl, ?_⟩
  unfold findLargeFilesWindows
  cases hp : processLargeEntries fs minBytes (listDirectory fs root).2 with
  | error e => exact ⟨e, by simp only [hp]⟩
  | ok v => exact ⟨PyErr.typeError, by simp only [hp]⟩

/-- **C3** (the claim fails on the code).  On the spec's own example tree
(`run.exe`, `lib.dll`, `note.txt` under `\r`), the extension search raises
`TypeError` instead of returning the two paths; its normalization does
produce `[".exe", ".dll"]`, but the filter the file loop applies compares
each item's `'type'` string (`'file'`/`'directory'`) with the normalized
extensions, so it selects nothing even before the crash. -/
theorem C3_extension_search_crashes :
    findByWindowsExtension fsC3 ["exe", ".DLL"] ["r"] = Except.error PyErr.typeError ∧
    normalizeExtensions ["exe", ".DLL"] = [".exe", ".dll"] ∧
    (listDirectory fsC3 ["r"]).2.filter
      (fun e => (normalizeExtensions ["exe", ".DLL"]).contains (entryTypeStr e)) = [] :=
  ⟨rfl, by decide, by decide⟩

/-- **C2, counterexample.**  `\r` holds one regular file `f` and one
symbolic link `ln` to a file, so exactly 1 non-directory non-symlink entry
is reachable — yet `count_files` returns 2: the symbolic link is counted
(nothing in `count_files` or `list_directory` consults `islink`). -/
theorem C2_counterexample :
    fsLink.listdir ["r"] = some ["f", "ln"] ∧
    fsLink.islink ["r", "f"] = false ∧ fsLink.islink ["r", "ln"] = true ∧
    fsLink.isdir ["r", "f"] = false ∧ fsLink.isdir ["r", "ln"] = false ∧
    countFiles fsLink 5 ["r"] = some (true, 2) := by decide

/-- **C4, counterexample.**  `\r` holds one regular file `f` and one
symbolic link back to `\r` itself.  `count_files` follows the link
(`os.path.isdir` is true through it) and counts `f` once per traversal
level — 6 times before the 260-character path validation cuts the cycle —
so an entry is counted more than once. -/
theorem C4_counterexample :
    fsLoop.listdir ["r"] = some ["f", aName] ∧
    fsLoop.islink ["r", aName] = true ∧
    fsLoop.isdir ["r", aName] = true ∧
    countFiles fsLoop 10 ["r"] = some (true, 6) := by decide

/-- **C4 (amended).**  On the same cyclic tree, `count_bytes` skips the
symbolic link and terminates with the exact single count (each entry once),
while `count_files` follows the link and still terminates — the
260-character path validation cuts the cycle — but counts the file once per
traversal level. -/
theorem C4_amended_cycle_behaviour :
    countBytes fsLoop 10 ["r"] = some (true, 100) ∧
    countFiles fsLoop 10 ["r"] = some (true, 6) := by decide

/-- **C5, counterexample.**  An existing directory whose listing is denied
yields success `(True, [])`, not a failure; and an entry whose stat calls
raise stays in the result with substitute values (`size = 0`,
`modified = 'N/A'`) instead of being omitted. -/
theorem C5_counterexample :
    fsDenied.exists_ ["r"] = true ∧ fsDenied.isdir ["r"] = true ∧
    fsDenied.listdir ["r"] = none ∧
    listDirectory fsDenied ["r"] = (true, []) ∧
    fsStatFail.getsize ["r", "g"] = none ∧ fsStatFail.mtime ["r", "g"] = none ∧
    listDirectory fsStatFail ["r"] =
      (true, [⟨["r", "g"], EType.file, SizeField.intZero, "N/A", false⟩]) := by decide

/-- **C5 (amended).**  `list_directory` returns a failure exactly when the
validator rejects the path: a forbidden character, more than 260
characters, or a nonexistent path.  Denied or non-directory listings are
absorbed into `(True, [])`, and per-entry stat failures keep the entry with
substitute values (see the counterexample). -/
theorem C5_amended_failure_characterization :
    ∀ (fs : FS) (p : List String),
      (listDirectory fs p).1 = false ↔
        (hasForbiddenChar (pathString p) = true ∨ 260 < (pathString p).length ∨
          fs.exists_ p = false) := by
  intro fs p
  unfold listDirectory validateWindowsPath
  by_cases h1 : hasForbiddenChar (pathString p) <;>
    by_cases h2 : 260 < (pathString p).length <;>
      by_cases h3 : fs.exists_ p <;> simp [h1, h2, h3]

/-- **C10, counterexample.**  `get_windows_file_attributes_stats` returns a
plain counter dictionary with no success flag: a nonexistent root produces
exactly the same value as an existing empty directory, so a root failure is
not surfaced in the returned value at all. -/
theorem C10_attr_counter_has_no_flag :
    fsMissing.exists_ ["r"] = false ∧ fsEmptyDir.exists_ ["r"] = true ∧
    getWindowsFileAttributesStats fsMissing 5 ["r"] = some ⟨0, 0, 0, 0⟩ ∧
    getWindowsFileAttributesStats fsEmptyDir 5 ["r"] = some ⟨0, 0, 0, 0⟩ := by decide

/-- **C10 (amended).**  A nonexistent root is surfaced as a `False` success
flag — without raising — by `count_files`, `count_bytes` and
`analyze_windows_file_types`; the attribute counter returns its zeroed
counters with no flag; the pattern search raises `TypeError` on every root. -/
theorem C10_amended_root_failure :
    ∀ (fs : FS) (fuel : Nat) (p : List String) (pattern : String) (cs : Bool),
      fs.exists_ p = false →
      countFiles fs (fuel + 1) p = some (false, 0) ∧
      countBytes fs fuel p = some (false, 0) ∧
      analyzeWindowsFileTypes fs fuel p = some (false, []) ∧
      getWindowsFileAttributesStats fs fuel p = some ⟨0, 0, 0, 0⟩ ∧
      findFilesWindows fs pattern p cs = Except.error PyErr.typeError := by
  intro fs fuel p pattern cs h
  refine ⟨?_, ?_, ?_, ?_, rfl⟩
  · simp [countFiles, h]
  · simp [countBytes, h]
  · simp [analyzeWindowsFileTypes, h]
  · simp [getWindowsFileAttributesStats, h]

/-- Witness for C10 (amended) on the concrete missing root `\r`. -/
theorem C10_witness :
    countFiles fsMissing 1 ["r"] = some (false, 0) ∧
    countBytes fsMissing 0 ["r"] = some (false, 0) ∧
    analyzeWindowsFileTypes fsMissing 0 ["r"] = some (false, []) ∧
    getWindowsFileAttributesStats fsMissing 0 ["r"] = some ⟨0, 0, 0, 0⟩ ∧
    findFilesWindows fsMissing "*" ["r"] false = Except.error PyErr.typeError :=
  C10_amended_root_failure fsMissing 0 ["r"] "*" false (by decide)

/-! ### C8: the largest-files window invariant -/

theorem findLargeStep_inv (K : Nat) (w : List FileRec) (f : FileRec)
    (hl : w.length ≤ K) :
    List.Sorted windowGe (findLargeStep K w f) ∧ (findLargeStep K w f).length ≤ K := by
  unfold findLargeStep sortBySizeDesc
  have hsorted := List.sorted_insertionSort windowGe (w ++ [f])
  have hlen : (List.insertionSort windowGe (w ++ [f])).length = w.length + 1 := by
    rw [(List.perm_insertionSort windowGe (w ++ [f])).length_eq, List.length_append]
    rfl
  by_cases hgt : (List.insertionSort windowGe (w ++ [f])).length > K
  · rw [if_pos hgt]
    refine ⟨List.Pairwise.sublist (List.dropLast_sublist _) hsorted, ?_⟩
    rw [List.length_dropLast, hlen]
    omega
  · rw [if_neg hgt]
    exact ⟨hsorted, by omega⟩

theorem largeItems_inv (fs : FS)
    (rec : List String → List FileRec → Option (List FileRec)) (K : Nat)
    (hrec : ∀ q acc res, List.Sorted windowGe acc → acc.length ≤ K →
      rec q acc = some res → List.Sorted windowGe res ∧ res.length ≤ K) :
    ∀ (items : List Entry) (acc res : List FileRec),
      List.Sorted windowGe acc → acc.length ≤ K →
      largeItems fs rec K items acc = some res →
      List.Sorted windowGe res ∧ res.length ≤ K := by
  intro items
  induction items with
  | nil =>
    intro acc res hs hl h
    simp only [largeItems] at h
    cases h
    exact ⟨hs, hl⟩
  | cons e rest ih =>
    intro acc res hs hl h
    simp only [largeItems] at h
    split at h
    · split at h
      · exact ih acc res hs hl h
      · rename_i sz hsz
        exact ih _ res (findLargeStep_inv K acc _ hl).1
          (findLargeStep_inv K acc _ hl).2 h
    · split at h
      · exact absurd h (by simp)
      · rename_i acc' hacc'
        exact ih acc' res (hrec _ acc acc' hs hl hacc').1 (hrec _ acc acc' hs hl hacc').2 h

theorem findLargeFiles_inv (fs : FS) :
    ∀ (fuel : Nat) (p : List String) (K : Nat) (acc res : List FileRec),
      List.Sorted windowGe acc → acc.length ≤ K →
      findLargeFiles fs fuel p K acc = some res →
      List.Sorted windowGe res ∧ res.length ≤ K := by
  intro fuel
  induction fuel with
  | zero =>
    intro p K acc res hs hl h
    simp [findLargeFiles] at h
  | succ n ih =>
    intro p K acc res hs hl h
    simp only [findLargeFiles] at h
    split at h
    · cases h
      exact ⟨hs, hl⟩
    · exact largeItems_inv fs _ K (fun q a r hsa hla hq => ih q K a r hsa hla hq)
        _ acc res hs hl h

theorem findLargeStep_unchanged (K : Nat) (w : List FileRec) (f : FileRec)
    (hs : List.Sorted windowGe w) (hl : w.length = K)
    (hf : ∀ r ∈ w, f.size < r.size) : findLargeStep K w f = w := by
  have hsorted : List.Sorted windowGe (w ++ [f]) := by
    refine List.pairwise_append.mpr ⟨hs, List.pairwise_singleton _ _, ?_⟩
    intro a ha b hb
    rw [List.mem_singleton] at hb
    subst hb
    exact Nat.le_of_lt (hf a ha)
  unfold findLargeStep sortBySizeDesc
  rw [hsorted.insertionSort_eq]
  have hgt : (w ++ [f]).length > K := by simp [hl]
  rw [if_pos hgt]
  exact List.dropLast_concat

/-- **C8.**  The walk of `find_large_files` keeps its window at most
`max_files` long and sorted descending by size (starting from any such
window, in particular the empty one); and inserting a file strictly smaller
than every record of a full window leaves the window unchanged. -/
theorem C8_window_invariant :
    (∀ (fs : FS) (fuel : Nat) (p : List String) (K : Nat) (acc res : List FileRec),
      List.Sorted windowGe acc → acc.length ≤ K →
      findLargeFiles fs fuel p K acc = some res →
      List.Sorted windowGe res ∧ res.length ≤ K) ∧
    (∀ (K : Nat) (w : List FileRec) (f : FileRec),
      List.Sorted windowGe w → w.length = K → (∀ r ∈ w, f.size < r.size) →
      findLargeStep K w f = w) :=
  ⟨fun fs fuel p K acc res hs hl h => findLargeFiles_inv fs fuel p K acc res hs hl h,
   findLargeStep_unchanged⟩

/-- Witness for C8: the sample walk's final window is sorted and within the
bound, and a strictly smaller record does not change a full window. -/
theorem C8_witness :
    (List.Sorted windowGe c8res ∧ c8res.length ≤ 3) ∧
    findLargeStep 2 c8res ⟨["r", "c"], "\\r\\c", 4⟩ = c8res :=
  ⟨C8_window_invariant.1 fsSample 5 ["r"] 3 [] c8res (by simp) (by simp) (by decide),
   C8_window_invariant.2 2 c8res ⟨["r", "c"], "\\r\\c", 4⟩
     (by simp [c8res, List.sorted_cons, windowGe]) rfl
     (by intro r hr; fin_cases hr <;> decide)⟩

/-! ### C7: the compiled matcher agrees with the wildcard specification -/

theorem compileWildcard_cons (cs : Bool) (c : Char) (ps : List Char) :
    compileWildcard cs (c :: ps) =
      (if c = '*' then WAtom.star
       else if c = '?' then WAtom.dot
       else WAtom.lit (if cs then c else c.toLower)) :: compileWildcard cs ps := by
  simp [compileWildcard]

theorem specGlob_star_eq (cs : Bool) (ps ds : List Char) :
    specGlob cs ('*' :: ps) ds =
      (specGlob cs ps ds ||
        match ds with
        | [] => false
        | _ :: tail => specGlob cs ('*' :: ps) tail) := by
  conv_lhs => rw [specGlob.eq_def]
  simp

theorem specGlob_qmark_eq (cs : Bool) (ps ds : List Char) :
    specGlob cs ('?' :: ps) ds =
      (match ds with
       | [] => false
       | _ :: tail => specGlob cs ps tail) := by
  conv_lhs => rw [specGlob.eq_def]
  simp

theorem specGlob_lit_eq (cs : Bool) (c : Char) (ps ds : List Char)
    (h1 : c ≠ '*') (h2 : c ≠ '?') :
    specGlob cs (c :: ps) ds =
      (match ds with
       | [] => false
       | d :: tail => (if cs then c else c.toLower) == d && specGlob cs ps tail) := by
  conv_lhs => rw [specGlob.eq_def]
  simp [h1, h2]

theorem wAcceptGo_eq_specGlob (cs : Bool) :
    ∀ (k : Nat) (pat nm : List Char), pat.length + nm.length < k →
      wAcceptGo k (compileWildcard cs pat) nm = specGlob cs pat nm := by
  intro k
  induction k with
  | zero => intro pat nm h; omega
  | succ k' ih =>
    intro pat nm h
    cases pat with
    | nil => cases nm <;> simp [compileWildcard, wAcceptGo, specGlob]
    | cons c ps =>
      simp only [List.length_cons] at h
      rw [compileWildcard_cons]
      by_cases hstar : c = '*'
      · subst hstar
        rw [if_pos rfl, specGlob_star_eq]
        cases nm with
        | nil =>
          simp only [wAcceptGo]
          rw [ih ps [] (by simp; omega)]
        | cons d ds =>
          simp only [List.length_cons] at h
          have h1 := ih ps (d :: ds) (by simp; omega)
          have h2 := ih ('*' :: ps) ds (by simp; omega)
          rw [compileWildcard_cons, if_pos rfl] at h2
          simp only [wAcceptGo]
          rw [h1, h2]
      · by_cases hq : c = '?'
        · subst hq
          rw [if_neg hstar, if_pos rfl, specGlob_qmark_eq]
          cases nm with
          | nil => simp [wAcceptGo]
          | cons d ds =>
            simp only [List.length_cons] at h
            simp only [wAcceptGo]
            exact ih ps ds (by omega)
        · rw [if_neg hstar, if_neg hq, specGlob_lit_eq cs c ps nm hstar hq]
          cases nm with
          | nil => simp [wAcceptGo]
          | cons d ds =>
            simp only [List.length_cons] at h
            simp only [wAcceptGo]
            rw [ih ps ds (by omega)]

theorem patternAccept_eq_specGlobMatch (pattern : String) (cs : Bool) (name : String) :
    patternAccept pattern cs name = specGlobMatch cs pattern name := by
  unfold patternAccept specGlobMatch wAccept
  apply wAcceptGo_eq_specGlob
  simp [compileWildcard]

/-- **C7, counterexample.**  The file loop evaluates the pattern against the
item's `name` field, which holds the full child path (`\r\a.txt`), not the
bare file name: the literal pattern `a.txt` fails on the entry that
`list_directory` produces for the file `a.txt`, although it matches the
bare name. -/
theorem C7_counterexample :
    (listDirectory fsPat ["r"]).2.map (fun e => pathString e.path) = ["\\r\\a.txt"] ∧
    (listDirectory fsPat ["r"]).2.map (fun e => entryMatches "a.txt" false e) = [false] ∧
    patternAccept "a.txt" false "a.txt" = true := by decide

/-- **C7 (amended).**  The pattern compilation and acceptance test realise
exactly the claimed wildcard semantics — `*` zero-or-more characters, `?`
exactly one, all else literal, anchored to the whole tested string,
case-insensitive by default — and the claim's examples hold; but the tested
string is the full child path held in the listing's `name` field, not the
bare file name (see the counterexample), and the surrounding search raises
before returning. -/
theorem C7_amended_wildcard_semantics :
    (∀ (pattern : String) (cs : Bool) (name : String),
      patternAccept pattern cs name = specGlobMatch cs pattern name) ∧
    patternAccept "*.txt" false "a.txt" = true ∧
    patternAccept "*.txt" false "A.TXT" = true ∧
    patternAccept "*.txt" false "a.txtx" = false ∧
    patternAccept "file?.log" false "file1.log" = true ∧
    patternAccept "file?.log" false "file12.log" = false :=
  ⟨patternAccept_eq_specGlobMatch, by decide, by decide, by decide, by decide, by decide⟩

/-! ### C9: the extension histogram's counts sum to the file count -/

theorem sumCounts_bumpExt (h : Hist) (ext : String) (s : Nat) (cat : String)
    (w : Bool) : sumCounts (bumpExt h ext s cat w) = sumCounts h + 1 := by
  induction h with
  | nil => rfl
  | cons kv rest ih =>
    obtain ⟨k, st⟩ := kv
    by_cases hk : k = ext
    · simp [bumpExt, hk, sumCounts]
      omega
    · simp [bumpExt, hk, sumCounts, ih]
      omega

theorem sumCounts_insertByCountDesc (x : String × ExtStat) (l : Hist) :
    sumCounts (insertByCountDesc x l) = x.2.count + sumCounts l := by
  induction l with
  | nil => rfl
  | cons y ys ih =>
    by_cases hc : x.2.count ≥ y.2.count
    · simp [insertByCountDesc, hc, sumCounts]
    · simp [insertByCountDesc, hc, sumCounts, ih]
      omega

theorem sumCounts_sortByCountDesc (h : Hist) :
    sumCounts (sortByCountDesc h) = sumCounts h := by
  induction h with
  | nil => rfl
  | cons y ys ih => simp [sortByCountDesc, sumCounts_insertByCountDesc, ih, sumCounts]

theorem sumCounts_postProcessHist (h : Hist) :
    sumCounts (postProcessHist h) = sumCounts h := by
  induction h with
  | nil => rfl
  | cons y ys ih => simp [postProcessHist, sumCounts] at ih ⊢; omega

theorem countFiles_false_zero (fs : FS) :
    ∀ (fuel : Nat) (p : List String) (n : Nat),
      countFiles fs fuel p = some (false, n) → n = 0 := by
  intro fuel p n h
  cases fuel with
  | zero => simp [countFiles] at h
  | succ k =>
    simp only [countFiles] at h
    split at h
    · cases h; rfl
    · split at h
      · cases h; rfl
      · obtain ⟨m, _, hbn⟩ := Option.map_eq_some'.mp h
        cases hbn

theorem countItems_collectItems_align (fs : FS)
    (recC : List String → Option (Bool × Nat))
    (recH : List String → Hist → Option Hist)
    (hzero : ∀ q n, recC q = some (false, n) → n = 0)
    (hrec : ∀ q b n h h', recC q = some (b, n) → recH q h = some h' →
      sumCounts h' = sumCounts h + n) :
    ∀ (items : List Entry) (m : Nat) (h h' : Hist),
      countFilesItems recC items = some m →
      collectItems fs recH items h = some h' →
      sumCounts h' = sumCounts h + m := by
  intro items
  induction items with
  | nil =>
    intro m h h' hm hh
    simp only [countFilesItems] at hm
    simp only [collectItems] at hh
    cases hm
    cases hh
    rfl
  | cons e rest ih =>
    intro m h h' hm hh
    simp only [countFilesItems] at hm
    simp only [collectItems] at hh
    by_cases ht : e.etype = EType.directory
    · rw [if_pos ht] at hm hh
      cases hc : recC e.path with
      | none => rw [hc] at hm; cases hm
      | some bn =>
        obtain ⟨b, nsub⟩ := bn
        rw [hc] at hm
        obtain ⟨m0, hm0, hmm⟩ := Option.map_eq_some'.mp hm
        subst hmm
        cases hmid : recH e.path h with
        | none => rw [hmid] at hh; cases hh
        | some hm1 =>
          rw [hmid] at hh
          have hsub := hrec e.path b nsub h hm1 hc hmid
          have htail := ih m0 hm1 h' hm0 hh
          cases b with
          | true => simp only [if_pos rfl, if_true] at *; omega
          | false =>
            have := hzero e.path nsub hc
            subst this
            simp at hsub ⊢
            omega
    · rw [if_neg ht] at hm hh
      obtain ⟨m0, hm0, hmm⟩ := Option.map_eq_some'.mp hm
      subst hmm
      have htail := ih m0 _ h' hm0 hh
      rw [htail, sumCounts_bumpExt]
      omega

theorem countFiles_collect_align (fs : FS) :
    ∀ (fuel : Nat) (p : List String) (b : Bool) (n : Nat) (h h' : Hist),
      countFiles fs fuel p = some (b, n) →
      collectExtensions fs fuel p h = some h' →
      sumCounts h' = sumCounts h + n := by
  intro fuel
  induction fuel with
  | zero => intro p b n h h' hc hh; simp [countFiles] at hc
  | succ k ih =>
    intro p b n h h' hc hh
    simp only [countFiles] at hc
    simp only [collectExtensions] at hh
    by_cases hex : fs.exists_ p = false
    · rw [if_pos hex] at hc
      rw [listDirectory_of_not_exists fs p hex] at hh
      cases hc
      cases hh
      rfl
    · rw [if_neg hex] at hc
      cases hld : listDirectory fs p with
      | mk success items =>
        rw [hld] at hc hh
        cases success with
        | false =>
          cases hc
          cases hh
          rfl
        | true =>
          obtain ⟨m0, hm0, hbn⟩ := Option.map_eq_some'.mp hc
          cases hbn
          exact countItems_collectItems_align fs _ _ (countFiles_false_zero fs k)
            (fun q b' n' hq hh' hq1 hq2 => ih q b' n' hq hh' hq1 hq2) items n h h' hm0 hh

/-- **C9.**  Whenever `count_files` and `analyze_windows_file_types`
both succeed on the same root, the per-extension counts of the histogram
sum to exactly the returned file count: every counted item lands in
exactly one extension bucket. -/
theorem C9_histogram_sums_to_count (fs : FS) (fuel : Nat) (p : List String)
    (n : Nat) (h : Hist)
    (hc : countFiles fs fuel p = some (true, n))
    (ha : analyzeWindowsFileTypes fs fuel p = some (true, h)) :
    sumCounts h = n := by
  unfold analyzeWindowsFileTypes at ha
  by_cases hex : fs.exists_ p = false
  · rw [if_pos hex] at ha
    simp at ha
  · rw [if_neg hex] at ha
    obtain ⟨h0, hh0, hpair⟩ := Option.map_eq_some'.mp ha
    have hh' : sortByCountDesc (postProcessHist h0) = h := congrArg Prod.snd hpair
    have := countFiles_collect_align fs fuel p true n [] h0 hc hh0
    rw [← hh', sumCounts_sortByCountDesc, sumCounts_postProcessHist]
    simpa [sumCounts] using this

/-- Witness for C9 on the sample tree: both folds succeed and the histogram
counts sum to the file count 2. -/
theorem C9_witness : sumCounts c9hist = 2 :=
  C9_histogram_sums_to_count fsSample 5 ["r"] 2 c9hist (by decide) (by decide)

/-! ### C2: `count_files` on symlink-free well-formed trees -/

theorem pathString_snoc (p : List String) (n : String) :
    pathString (p ++ [n]) = pathString p ++ "\\" ++ n := by
  unfold pathString
  rw [List.foldl_append]
  rfl

theorem hasForbidden_append (s t : String) :
    hasForbiddenChar (s ++ t) = (hasForbiddenChar s || hasForbiddenChar t) := by
  unfold hasForbiddenChar
  rw [String.data_append, List.any_append]

theorem pathString_snoc_length (p : List String) (n : String) :
    (pathString (p ++ [n])).length = (pathString p).length + 1 + n.length := by
  rw [pathString_snoc, String.length_append, String.length_append]
  rfl

theorem hasForbidden_snoc (p : List String) (n : String) :
    hasForbiddenChar (pathString (p ++ [n])) =
      (hasForbiddenChar (pathString p) || hasForbiddenChar n) := by
  rw [pathString_snoc, hasForbidden_append, hasForbidden_append]
  have hsep : hasForbiddenChar "\\" = false := by decide
  rw [hsep, Bool.or_false]

theorem nsize_pos : ∀ (t : FTree), 0 < t.nsize := by
  intro t
  cases t <;> simp [FTree.nsize]

theorem nsize_le_of_mem :
    ∀ (es : List (String × FTree)) (n : String) (c : FTree),
      (n, c) ∈ es → c.nsize ≤ entriesNsize es := by
  intro es
  induction es with
  | nil => simp
  | cons hd tl ih =>
    intro n c hm
    obtain ⟨m, d⟩ := hd
    rw [List.mem_cons] at hm
    rcases hm with h | h
    · cases h
      simp [entriesNsize]
    · have := ih n c h
      simp only [entriesNsize]
      omega

theorem height_lt_of_mem :
    ∀ (es : List (String × FTree)) (n : String) (c : FTree),
      (n, c) ∈ es → c.height < (FTree.dir es).height := by
  intro es
  induction es with
  | nil => simp
  | cons hd tl ih =>
    intro n c hm
    obtain ⟨m, d⟩ := hd
    rw [List.mem_cons] at hm
    simp only [FTree.height, entriesHeight]
    rcases hm with h | h
    · cases h
      omega
    · have := ih n c h
      simp only [FTree.height] at this
      omega

theorem lookup_of_mem_nodup :
    ∀ (es : List (String × FTree)) (n : String) (c : FTree),
      namesNodup es = true → (n, c) ∈ es → lookupEntry es n = some c := by
  intro es
  induction es with
  | nil => simp
  | cons hd tl ih =>
    intro n c hnd hm
    obtain ⟨m, d⟩ := hd
    simp only [namesNodup, Bool.and_eq_true] at hnd
    obtain ⟨hnotin, hnd'⟩ := hnd
    rw [List.mem_cons] at hm
    rcases hm with h | h
    · cases h
      simp [lookupEntry]
    · by_cases hmn : m = n
      · exfalso
        subst hmn
        have hmem : m ∈ tl.map Prod.fst := List.mem_map.mpr ⟨(m, c), h, rfl⟩
        have : (tl.map Prod.fst).contains m = true := by simpa using hmem
        rw [this] at hnotin
        cases hnotin
      · simp only [lookupEntry, if_neg hmn]
        exact ih n c hnd' h

theorem resolve_append :
    ∀ (xs : List String) (t : FTree) (ys : List String),
      t.resolve (xs ++ ys) = (t.resolve xs).bind (fun u => u.resolve ys) := by
  intro xs
  induction xs with
  | nil => intro t ys; simp [FTree.resolve]
  | cons n xs ih =>
    intro t ys
    cases t with
    | file s => simp [FTree.resolve]
    | dir es =>
      simp only [List.cons_append, FTree.resolve]
      cases lookupEntry es n with
      | none => simp
      | some c => simp [ih c ys]

theorem resolve_single (es : List (String × FTree)) (n : String) :
    (FTree.dir es).resolve [n] = lookupEntry es n := by
  simp only [FTree.resolve]
  cases lookupEntry es n <;> simp [FTree.resolve]

theorem treeAt_snoc (root : String) (T : FTree) (p : List String) (n : String)
    (t : FTree) (h : treeAt root T p = some t) :
    treeAt root T (p ++ [n]) = t.resolve [n] := by
  cases p with
  | nil => simp [treeAt] at h
  | cons r rest =>
    simp only [treeAt] at h ⊢
    by_cases hr : r = root
    · rw [if_pos hr] at h
      show (if r = root then T.resolve (rest ++ [n]) else none) = t.resolve [n]
      rw [if_pos hr, resolve_append rest T [n], h]
      rfl
    · rw [if_neg hr] at h
      cases h

theorem mkEntry_path (fs : FS) (child : List String) :
    (mkEntry fs child).path = child := rfl

theorem mkEntry_etype_dir (root : String) (T : FTree) (child : List String)
    (es2 : List (String × FTree)) (h : treeAt root T child = some (FTree.dir es2)) :
    (mkEntry (fsOfTree root T) child).etype = EType.directory := by
  simp [mkEntry, fsOfTree, h]

theorem mkEntry_etype_file (root : String) (T : FTree) (child : List String)
    (s : Nat) (h : treeAt root T child = some (FTree.file s)) :
    (mkEntry (fsOfTree root T) child).etype = EType.file := by
  simp [mkEntry, fsOfTree, h]

theorem listDirectory_tree (root : String) (T : FTree) (p : List String)
    (es : List (String × FTree))
    (ht : treeAt root T p = some (FTree.dir es))
    (hf : hasForbiddenChar (pathString p) = false)
    (hlen : (pathString p).length ≤ 260) :
    listDirectory (fsOfTree root T) p =
      (true, es.map (fun en => mkEntry (fsOfTree root T) (p ++ [en.1]))) := by
  have hex : (fsOfTree root T).exists_ p = true := by simp [fsOfTree, ht]
  have hval : (validateWindowsPath ((fsOfTree root T).exists_ p) (pathString p)).1
      = true := by
    rw [hex]
    unfold validateWindowsPath
    rw [hf]
    simp [Nat.not_lt.mpr hlen]
  have hld : (fsOfTree root T).listdir p = some (es.map Prod.fst) := by
    simp [fsOfTree, ht]
  unfold listDirectory safeWindowsListdir
  rw [hval, hex, hld]
  simp [List.map_map, Function.comp]

theorem countFiles_tree_dir (root : String) (T : FTree) :
    ∀ (N : Nat) (es : List (String × FTree)) (p : List String) (fuel : Nat),
      (FTree.dir es).nsize ≤ N →
      treeAt root T p = some (FTree.dir es) →
      hasForbiddenChar (pathString p) = false →
      (pathString p).length ≤ 260 →
      FTree.wfB (pathString p).length (FTree.dir es) = true →
      (FTree.dir es).height < fuel →
      countFiles (fsOfTree root T) fuel p = some (true, entriesCount es) := by
  intro N
  induction N with
  | zero =>
    intro es p fuel hsz _ _ _ _ _
    have := nsize_pos (FTree.dir es)
    omega
  | succ N ih =>
    intro es p fuel hsz ht hf hlen hwf hh
    obtain ⟨fuel, rfl⟩ : ∃ k, fuel = k + 1 := ⟨fuel - 1, by omega⟩
    have hex : (fsOfTree root T).exists_ p = true := by simp [fsOfTree, ht]
    simp only [countFiles, hex, Bool.true_eq_false, if_neg, ite_false]
    rw [listDirectory_tree root T p es ht hf hlen]
    simp only [FTree.wfB, Bool.and_eq_true] at hwf
    obtain ⟨hnodup, hentries⟩ := hwf
    suffices hsuf : ∀ (esSuf : List (String × FTree)),
        (∀ nc, nc ∈ esSuf → nc ∈ es) →
        entriesWf (pathString p).length esSuf = true →
        countFilesItems (countFiles (fsOfTree root T) fuel)
          (esSuf.map (fun en => mkEntry (fsOfTree root T) (p ++ [en.1]))) =
          some (entriesCount esSuf) by
      show (countFilesItems (countFiles (fsOfTree root T) fuel)
          (es.map (fun en => mkEntry (fsOfTree root T) (p ++ [en.1])))).map
          (fun n => (true, n)) = some (true, entriesCount es)
      rw [hsuf es (fun nc hnc => hnc) hentries]
      rfl
    intro esSuf
    induction esSuf with
    | nil =>
      intro _ _
      simp [countFilesItems, entriesCount]
    | cons hd tl ihs =>
      intro hmem hwfs
      obtain ⟨n, c⟩ := hd
      simp only [entriesWf, Bool.and_eq_true, decide_eq_true_eq] at hwfs
      obtain ⟨⟨⟨hname, hlen2⟩, hwfc⟩, hwftl⟩ := hwfs
      have hmemes : (n, c) ∈ es := hmem (n, c) (by simp)
      have hlk : lookupEntry es n = some c :=
        lookup_of_mem_nodup es n c hnodup hmemes
      have htc : treeAt root T (p ++ [n]) = some c := by
        rw [treeAt_snoc root T p n _ ht, resolve_single, hlk]
      have hnf : hasForbiddenChar n = false := by
        simp only [entryNameOk, Bool.and_eq_true] at hname
        simpa using hname.1.2
      have hfc : hasForbiddenChar (pathString (p ++ [n])) = false := by
        rw [hasForbidden_snoc, hf, hnf]
        rfl
      have hlc : (pathString (p ++ [n])).length ≤ 260 := by
        rw [pathString_snoc_length]
        omega
      simp only [List.map_cons, countFilesItems]
      cases c with
      | file s =>
        rw [if_neg (by rw [mkEntry_etype_file root T _ s htc]; simp)]
        rw [ihs (fun nc hnc => hmem nc (by simp [hnc])) hwftl]
        simp [entriesCount, FTree.specCount]
      | dir es2 =>
        rw [if_pos (mkEntry_etype_dir root T _ es2 htc)]
        have hszc : (FTree.dir es2).nsize ≤ N := by
          have h1 := nsize_le_of_mem es n _ hmemes
          simp only [FTree.nsize] at hsz h1 ⊢
          omega
        have hhc : (FTree.dir es2).height < fuel := by
          have h1 := height_lt_of_mem es n _ hmemes
          omega
        have hwfc' : FTree.wfB (pathString (p ++ [n])).length (FTree.dir es2)
            = true := by
          rw [pathString_snoc_length]
          exact hwfc
        have hrec := ih es2 (p ++ [n]) fuel hszc htc hfc hlc hwfc' hhc
        rw [mkEntry_path, hrec]
        rw [ihs (fun nc hnc => hmem nc (by simp [hnc])) hwftl]
        simp [entriesCount, FTree.specCount]

/-- **C2 (amended).**  On every symlink-free well-formed tree (valid,
pairwise-distinct entry names; every rendered path within the validator's
260-character bound) mounted at a valid root, `count_files` succeeds and
returns exactly the number of non-directory entries reachable by
depth-first traversal.  (With symbolic links present the claim fails: links
to files are counted and links to directories are followed — see the
counterexample.) -/
theorem C2_amended_count (root : String) (es : List (String × FTree))
    (fuel : Nat)
    (hroot : entryNameOk root = true)
    (hrootlen : 1 + root.length ≤ 260)
    (hwf : FTree.wfB (1 + root.length) (FTree.dir es) = true)
    (hfuel : (FTree.dir es).height < fuel) :
    countFiles (fsOfTree root (FTree.dir es)) fuel [root] =
      some (true, (FTree.dir es).specCount) := by
  have hps : pathString [root] = "\\" ++ root := by
    simp [pathString]
  have hpslen : (pathString [root]).length = 1 + root.length := by
    rw [hps, String.length_append]
    rfl
  have hroot' : hasForbiddenChar root = false := by
    simp only [entryNameOk, Bool.and_eq_true] at hroot
    simpa using hroot.1.2
  have hpf : hasForbiddenChar (pathString [root]) = false := by
    rw [hps, hasForbidden_append, hroot']
    decide
  have hplen : (pathString [root]).length ≤ 260 := by omega
  have ht : treeAt root (FTree.dir es) [root] = some (FTree.dir es) := by
    simp [treeAt, FTree.resolve]
  have := countFiles_tree_dir root (FTree.dir es) ((FTree.dir es).nsize) es
    [root] fuel (Nat.le_refl _) ht hpf hplen (by rw [hpslen]; exact hwf) hfuel
  rw [this]
  simp [FTree.specCount]

/-- Witness for C2 (amended) on the sample tree (two files, one in a
subdirectory): the count is its `specCount`, 2. -/
theorem C2_witness :
    countFiles
        (fsOfTree "r" (FTree.dir [("a.txt", FTree.file 10),
          ("sub", FTree.dir [("b", FTree.file 20)])])) 5 ["r"] =
      some (true, (FTree.dir [("a.txt", FTree.file 10),
        ("sub", FTree.dir [("b", FTree.file 20)])]).specCount) :=
  C2_amended_count "r" _ 5 (by decide) (by decide) (by decide) (by decide)
